import Mathlib

/-!
Verification of `llm_helpers` (Python) against its natural-language
specification.

Shallow embedding, translated from the source files:

* `src/llm_helpers/llm_core/rate_limiter.py` — `LLMRateLimiter`
  (`acquire_session` / `release_session`), modelled as a small-step
  transition system over an explicit state; the `async` suspension
  points of the Python code are the atomic-step boundaries.
* `src/llm_helpers/processor_core/processor_core.py` — `ProcessorCore`
  (`_clean_json_response`, `process_v2` post-parse check, `__init__`
  handler registration, `parallel_batch_process`,
  `sequential_batch_process`), modelled as pure functions returning
  `Except`.  LLM calls (`self.process`, `json.loads`) are external
  effects and enter the model as function parameters (oracles).

Python dictionaries are modelled as insertion-ordered association
lists; Python exceptions as an explicit error type `PyErr`.
-/

/-- Parsed JSON values, as produced by Python `json.loads`:
objects are insertion-ordered key/value lists. -/
inductive J where
  | null : J
  | bool : Bool → J
  | num : Int → J
  | str : String → J
  | arr : List J → J
  | obj : List (String × J) → J

/-- Python exception classes that the modelled code can raise. -/
inductive PyErr where
  | valueError : String → PyErr
  | typeError : String → PyErr
  | keyError : String → PyErr
  | nameError : String → PyErr
  | attributeError : String → PyErr
  | exc : String → PyErr
deriving DecidableEq

/-- Whether the character list `p` occurs contiguously inside `s`
(Python substring containment, `p in s` for strings). -/
def subAux (p : List Char) : List Char → Bool
  | [] => p.isPrefixOf []
  | c :: cs => p.isPrefixOf (c :: cs) || subAux p cs

/-- Python `k in v` (the `__contains__` protocol): key membership for
dicts, substring for strings, element equality for lists, and a
`TypeError` for non-container values. -/
def pyIn (k : String) : J → Except PyErr Bool
  | .obj l => .ok (l.any (fun p => p.1 == k))
  | .str t => .ok (subAux k.data t.data)
  | .arr l => .ok (l.any (fun v => match v with | .str t => t == k | _ => false))
  | .null => .error (.typeError "argument of type NoneType is not iterable")
  | .bool _ => .error (.typeError "argument of type bool is not iterable")
  | .num _ => .error (.typeError "argument of type int is not iterable")

/-- Python `v[k]` for a string key `k`: dict lookup (`KeyError` when
missing), `TypeError` for strings, lists and non-subscriptable
values. -/
def pyGetItem (v : J) (k : String) : Except PyErr J :=
  match v with
  | .obj l =>
    match l.find? (fun p => p.1 == k) with
    | some p => .ok p.2
    | none => .error (.keyError k)
  | .str _ => .error (.typeError "string indices must be integers")
  | .arr _ => .error (.typeError "list indices must be integers")
  | _ => .error (.typeError "object is not subscriptable")

/-- The missing-main-key `ValueError` raised by `process_v2`. -/
def missingMainKeyErr (processType : String) : PyErr :=
  .valueError ("Invalid JSON response from processor, missing main key: " ++ processType)

/-- The post-parse step of `ProcessorCore.process_v2`
(processor_core.py lines 286–288): `if process_type not in
cleaned_response: raise ValueError(...)` followed by `return
cleaned_response[process_type]`. -/
def mainKeyStep (processType : String) (v : J) : Except PyErr J :=
  match pyIn processType v with
  | .error e => .error e
  | .ok false => .error (missingMainKeyErr processType)
  | .ok true => pyGetItem v processType

/-- First binding of key `k` in an association list. -/
def lookupKey (l : List (String × J)) (k : String) : Option (String × J) :=
  l.find? (fun p => p.1 == k)

/-- Index of the first occurrence of `p` in a character list, Python
`str.find` (with `-1` rendered as `none`). -/
def findIdx (p : List Char) : List Char → Option Nat
  | [] => if p.isPrefixOf [] then some 0 else none
  | c :: t => if p.isPrefixOf (c :: t) then some 0 else (findIdx p t).map (fun n => n + 1)

def jsonStartMarker : List Char := "__json_start__".data

def jsonEndMarker : List Char := "__json_end__".data

/-- Marker extraction of `_clean_json_response` (processor_core.py
lines 154–163): missing begin marker is fatal; missing end marker
keeps everything after the begin marker; otherwise the slice
`response[start+len:end]` is taken. -/
def extractJson (raw : String) : Except PyErr (List Char) :=
  match findIdx jsonStartMarker raw.data with
  | none => .error (.valueError "Invalid response from processor")
  | some i =>
    match findIdx jsonEndMarker raw.data with
    | none => .ok (raw.data.drop (i + jsonStartMarker.length))
    | some e => .ok ((raw.data.take e).drop (i + jsonStartMarker.length))

/-- The newline-escaping repair pass,
`cleaned_json_response.replace("\n", "\\n")`. -/
def fixNewlines (l : List Char) : List Char :=
  (l.map (fun c => if c = Char.ofNat 10 then [Char.ofNat 92, Char.ofNat 110] else [c])).flatten

/-- One invocation's parsing work in `_clean_json_response`: the
initial `json.loads`, then on failure `json.loads` again after
escaping newlines (lines 168–178). -/
def parseTwice (parse : List Char → Option J) (content : List Char) : Option J :=
  match parse content with
  | some j => some j
  | none => parse (fixNewlines content)

/-- Recursion core of `ProcessorCore._clean_json_response`
(processor_core.py lines 152–198).  `parse` is the `json.loads`
oracle, `fixer` the `self.process(..., "__fix_json__")` oracle (an
external LLM call, which may itself raise).  The Python guard
`retry_count >= max_retries` is carried as the fuel
`k = max_retries - retry_count`, which along real executions (where
`retry_count` counts up from `0`) is exactly the number of self-repair
rounds still allowed.  The second component counts the invocations
that reached `json.loads` (the parse attempts of the spec).  Note the
faithful error laundering: a failure inside the recursive self-repair
branch is caught by the enclosing `except` and re-raised as the
generic `ValueError("Invalid JSON response from processor")`, so the
attempt-count-naming message survives only at recursion depth. -/
def cleanJsonGo (parse : List Char → Option J) (fixer : String → Except PyErr String)
    (maxRetries : Nat) : Nat → String → Except PyErr J × Nat
  | 0, raw =>
    match extractJson raw with
    | .error e => (.error e, 0)
    | .ok content =>
      match parseTwice parse content with
      | some j => (.ok j, 1)
      | none =>
        (.error (.valueError ("Invalid JSON response from processor after " ++
          toString (maxRetries + 1) ++ " attempts")), 1)
  | k + 1, raw =>
    match extractJson raw with
    | .error e => (.error e, 0)
    | .ok content =>
      match parseTwice parse content with
      | some j => (.ok j, 1)
      | none =>
        match fixer raw with
        | .error _ => (.error (.valueError "Invalid JSON response from processor"), 1)
        | .ok resp =>
          let p := cleanJsonGo parse fixer maxRetries k resp
          (match p.1 with
           | .ok j => .ok j
           | .error _ => .error (.valueError "Invalid JSON response from processor"),
           p.2 + 1)

/-- `ProcessorCore._clean_json_response(raw, retry_count, max_retries)`. -/
def cleanJson (parse : List Char → Option J) (fixer : String → Except PyErr String)
    (raw : String) (retryCount maxRetries : Nat) : Except PyErr J × Nat :=
  cleanJsonGo parse fixer maxRetries (maxRetries - retryCount) raw

/-- The Python default value of the `max_retries` parameter of
`_clean_json_response` (processor_core.py line 152). -/
def cleanJsonDefaultMaxRetries : Nat := 2

theorem cleanJsonGo_malformed (parse : List Char → Option J)
    (fixer : String → Except PyErr String) (maxRetries : Nat)
    (hp : ∀ c, parse c = none)
    (hf : ∀ s, ∃ t, fixer s = .ok t ∧ ∃ c, extractJson t = .ok c) :
    ∀ k raw c, extractJson raw = .ok c →
      cleanJsonGo parse fixer maxRetries k raw =
        ((if k = 0 then
            .error (.valueError ("Invalid JSON response from processor after " ++
              toString (maxRetries + 1) ++ " attempts"))
          else .error (.valueError "Invalid JSON response from processor")), k + 1) := by
  intro k
  induction k with
  | zero =>
    intro raw c hex
    simp [cleanJsonGo, hex, parseTwice, hp]
  | succ k ih =>
    intro raw c hex
    obtain ⟨t, hft, c2, hex2⟩ := hf raw
    have hrec := ih t c2 hex2
    simp [cleanJsonGo, hex, parseTwice, hp, hft, hrec]
    by_cases hk : k = 0 <;> simp [hk]

/-- C3 (amended): for an always-malformed input (the begin marker is
present but no parse attempt ever succeeds, and every self-repair call
returns another marker-delimited string), `_clean_json_response`
starting at `retry_count = 0` makes exactly `max_retries + 1` parse
attempts; the default of `max_retries` is `2` (hence 3 attempts by
default, not 4); and for `max_retries ≥ 1` the error surfaced to the
caller is the generic `ValueError("Invalid JSON response from
processor")` — the message naming the attempt count is raised only at
the innermost recursion level and is replaced while unwinding. -/
theorem C3_cleanJson_attempt_count (parse : List Char → Option J)
    (fixer : String → Except PyErr String) (raw : String) (maxRetries : Nat)
    (hp : ∀ c, parse c = none)
    (hf : ∀ s, ∃ t, fixer s = .ok t ∧ ∃ c, extractJson t = .ok c)
    (hex : ∃ c, extractJson raw = .ok c)
    (hm : 1 ≤ maxRetries) :
    cleanJsonDefaultMaxRetries = 2 ∧
      (cleanJson parse fixer raw 0 maxRetries).2 = maxRetries + 1 ∧
      (cleanJson parse fixer raw 0 maxRetries).1 =
        .error (.valueError "Invalid JSON response from processor") := by
  obtain ⟨c, hc⟩ := hex
  have h := cleanJsonGo_malformed parse fixer maxRetries hp hf maxRetries raw c hc
  have hne : maxRetries ≠ 0 := Nat.one_le_iff_ne_zero.mp hm
  refine ⟨rfl, ?_, ?_⟩
  · unfold cleanJson
    rw [Nat.sub_zero, h]
  · unfold cleanJson
    rw [Nat.sub_zero, h]
    simp [hne]

/-- C3 (witness for the amended theorem): with the always-failing
parser, a constant self-repair oracle and `max_retries = 2`, the run
makes 3 parse attempts and surfaces the generic error. -/
theorem C3_cleanJson_attempt_count_witness :
    cleanJsonDefaultMaxRetries = 2 ∧
      (cleanJson (fun _ => none) (fun _ => .ok "__json_start__x") "__json_start__x" 0 2).2 = 2 + 1 ∧
      (cleanJson (fun _ => none) (fun _ => .ok "__json_start__x") "__json_start__x" 0 2).1 =
        .error (.valueError "Invalid JSON response from processor") :=
  C3_cleanJson_attempt_count (fun _ => none) (fun _ => .ok "__json_start__x")
    "__json_start__x" 2 (fun _ => rfl)
    (fun _ => ⟨"__json_start__x", rfl, ⟨"__json_start__x".data.drop 14, rfl⟩⟩)
    ⟨"__json_start__x".data.drop 14, rfl⟩ (by decide)

/-- C3 (counterexample): with the default `max_retries` the claim
fails concretely: the default is `2`, not `3`; an always-malformed
input is given `3` total parse attempts, not `4`; and the terminal
error reaching the caller is the generic message that does not name
the attempt count. -/
theorem C3_counterexample :
    cleanJsonDefaultMaxRetries ≠ 3 ∧
      (cleanJson (fun _ => none) (fun _ => .ok "__json_start__x") "__json_start__x" 0
        cleanJsonDefaultMaxRetries).2 = 3 ∧
      (cleanJson (fun _ => none) (fun _ => .ok "__json_start__x") "__json_start__x" 0
        cleanJsonDefaultMaxRetries).2 ≠ 4 ∧
      (cleanJson (fun _ => none) (fun _ => .ok "__json_start__x") "__json_start__x" 0
        cleanJsonDefaultMaxRetries).1 =
        .error (.valueError "Invalid JSON response from processor") := by
  refine ⟨by decide, rfl, ?_, rfl⟩
  intro h
  rw [show (cleanJson (fun _ => none) (fun _ => .ok "__json_start__x") "__json_start__x" 0
    cleanJsonDefaultMaxRetries).2 = 3 from rfl] at h
  exact absurd h (by decide)

/-- C7 (counterexample): the parsed value `42` is not a mapping
containing the key `"summary"`, yet `process_v2` does not fail with the
missing-main-key `ValueError`: the membership test `process_type in
cleaned_response` itself raises a `TypeError`, refuting the claim as
stated. -/
theorem C7_counterexample :
    mainKeyStep "summary" (J.num 42) ≠ .error (missingMainKeyErr "summary") ∧
      mainKeyStep "summary" (J.num 42) =
        .error (.typeError "argument of type int is not iterable") := by
  constructor
  · intro h
    have h2 : PyErr.typeError "argument of type int is not iterable" =
        missingMainKeyErr "summary" := by
      injection h
    exact PyErr.noConfusion h2
  · rfl

/-- C7 (amended): when the parsed value is a mapping, `process_v2`
returns the value stored under the `process_type` key if one exists
and fails with the missing-main-key `ValueError` otherwise; for
non-mapping parsed values the Python membership test / indexing can
instead raise `TypeError` (see the counterexample). -/
theorem C7_mainKeyStep_on_mapping (processType : String) (l : List (String × J)) :
    mainKeyStep processType (.obj l) =
      match lookupKey l processType with
      | some p => .ok p.2
      | none => .error (missingMainKeyErr processType) := by
  unfold mainKeyStep pyIn pyGetItem lookupKey
  cases h : l.find? (fun p => p.1 == processType) with
  | none =>
    have hany : l.any (fun p => p.1 == processType) = false := by
      rw [List.any_eq_false]
      intro x hx
      exact List.find?_eq_none.mp h x hx
    simp [hany]
  | some p =>
    have hany : l.any (fun p => p.1 == processType) = true := by
      rw [List.any_eq_true]
      have hm := List.mem_of_find?_eq_some h
      have hp := List.find?_some h
      exact ⟨p, hm, hp⟩
    simp [hany, h]

/-- Handler registration in `ProcessorCore.__init__` (processor_core.py
lines 34–73).  `H` is the type of `BaseLLMHandler` instances (the
`isinstance` validation always passes for a well-typed argument);
`created` is the handler that `LLMHandler.create(...)` would build
(priority 4).  The final registration loop executes
`self.llm_handlers[lower(name)] = handler` for each entry of
`llm_handlers`; the name `lower` is unbound in that scope, so the
first iteration raises `NameError`. -/
def procInitHandlers {H : Type} (created : H) (llmHandler : Option H)
    (llmHandlers : List (String × H)) : Except PyErr (List (String × H)) :=
  let defaultH : H :=
    match llmHandler with
    | some h => h
    | none =>
      match llmHandlers.find? (fun p => p.1 == "default") with
      | some p => p.2
      | none =>
        match llmHandlers with
        | [single] => single.2
        | _ => created
  match llmHandlers with
  | [] => .ok [("default", defaultH)]
  | _ :: _ => .error (.nameError "name lower is not defined")

/-- C9: with a non-empty `llm_handlers` mapping (of well-typed
handlers), `ProcessorCore.__init__` raises `NameError` from the
unbound name `lower` in the registration loop, so no handler is ever
registered under its own name through the constructor. -/
theorem C9_init_nameError {H : Type} (created : H) (llmHandler : Option H)
    (llmHandlers : List (String × H)) (hne : llmHandlers ≠ []) :
    procInitHandlers created llmHandler llmHandlers =
      .error (.nameError "name lower is not defined") := by
  unfold procInitHandlers
  cases llmHandlers with
  | nil => exact absurd rfl hne
  | cons p rest => rfl

/-- C9 (witness): a single anonymous handler passed via
`llm_handlers` makes the constructor raise `NameError`. -/
theorem C9_init_nameError_witness :
    procInitHandlers () none [("mine", ())] =
      .error (.nameError "name lower is not defined") :=
  C9_init_nameError () none [("mine", ())] (by simp)

/-- Python dict assignment `m[k] = v`: replaces the binding in place
when the key is present (dictionaries preserve insertion position),
appends otherwise. -/
def dictSet : List (String × J) → String → J → List (String × J)
  | [], k, v => [(k, v)]
  | p :: rest, k, v => if p.1 == k then (k, v) :: rest else p :: dictSet rest k v

/-- Value bound to key `k`, if any. -/
def getVal (m : List (String × J)) (k : String) : Option J :=
  (lookupKey m k).map Prod.snd

/-- Python `response.get(val)`: present only on dicts (`None` for a
missing key); any other receiver raises `AttributeError`. -/
def respGet (resp : J) (k : String) : Except PyErr J :=
  match resp with
  | .obj m => .ok ((getVal m k).getD J.null)
  | .str _ => .error (.attributeError "str object has no attribute get")
  | .arr _ => .error (.attributeError "list object has no attribute get")
  | .null => .error (.attributeError "NoneType object has no attribute get")
  | .bool _ => .error (.attributeError "bool object has no attribute get")
  | .num _ => .error (.attributeError "int object has no attribute get")

/-- The carry-injection loop of `sequential_batch_process`
(processor_core.py lines 348–350): for each `(key, val)` item of the
carry map, `if val in response: chunk[key] = response.get(val)`. -/
def applyCarry : List (String × String) → J → List (String × J) →
    Except PyErr (List (String × J))
  | [], _, chunk => .ok chunk
  | (key, val) :: rest, resp, chunk =>
    match pyIn val resp with
    | .error e => .error e
    | .ok false => applyCarry rest resp chunk
    | .ok true =>
      match respGet resp val with
      | .error e => .error e
      | .ok v => applyCarry rest resp (dictSet chunk key v)

/-- The initial carry state of `sequential_batch_process`
(processor_core.py line 346): `{val: "n/a" for val in
sequential_config.values()}`. -/
def initCarry (cfg : List (String × String)) : J :=
  .obj (cfg.map (fun p => (p.2, J.str "n/a")))

/-- The chunk loop of `sequential_batch_process` (processor_core.py
lines 347–359), instrumented to return, per chunk, both the input
actually passed to `process_v2` (after carry injection) and its
result.  `pv` is the `process_v2` oracle. -/
def seqGoTr (pv : List (String × J) → Except PyErr J) (cfg : List (String × String)) :
    J → List (List (String × J)) → Except PyErr (List (List (String × J) × J))
  | _, [] => .ok []
  | resp, chunk :: rest =>
    match applyCarry cfg resp chunk with
    | .error e => .error e
    | .ok chunk2 =>
      match pv chunk2 with
      | .error e => .error e
      | .ok r =>
        match seqGoTr pv cfg r rest with
        | .error e => .error e
        | .ok tr => .ok ((chunk2, r) :: tr)

/-- `sequential_batch_process_all` (processor_core.py lines 365–382):
drains the `sequential_batch_process` generator.  When
`sequential_config` is omitted or `None`, the first generator step
executes `sequential_config.values()` on `None` and raises
`AttributeError` before any chunk is processed. -/
def seqBatchAll (pv : List (String × J) → Except PyErr J)
    (chunks : List (List (String × J)))
    (cfg? : Option (List (String × String))) : Except PyErr (List J) :=
  match cfg? with
  | none => .error (.attributeError "NoneType object has no attribute values")
  | some cfg =>
    match seqGoTr pv cfg (initCarry cfg) chunks with
    | .error e => .error e
    | .ok tr => .ok (tr.map Prod.snd)

/-- C10: with `sequential_config` omitted or `None`, iterating the
sequential batch generator raises `AttributeError` (from
`None.values()`) before any chunk is processed: the outcome is this
error for every `process_v2` oracle and every chunk list, so no chunk
is ever handed to the pipeline. -/
theorem C10_seq_none_attributeError (pv : List (String × J) → Except PyErr J)
    (chunks : List (List (String × J))) :
    seqBatchAll pv chunks none =
      .error (.attributeError "NoneType object has no attribute values") := rfl

theorem getVal_nil (k : String) : getVal [] k = none := rfl

theorem getVal_cons (p : String × J) (l : List (String × J)) (k : String) :
    getVal (p :: l) k = if p.1 == k then some p.2 else getVal l k := by
  by_cases h : (p.1 == k) = true
  · simp [getVal, lookupKey, List.find?_cons, h]
  · simp only [Bool.not_eq_true] at h
    simp [getVal, lookupKey, List.find?_cons, h]

theorem getVal_dictSet_self (m : List (String × J)) (k : String) (v : J) :
    getVal (dictSet m k v) k = some v := by
  induction m with
  | nil => simp [dictSet, getVal_cons]
  | cons p rest ih =>
    by_cases h : (p.1 == k) = true
    · simp [dictSet, h, getVal_cons]
    · simp only [Bool.not_eq_true] at h
      simp [dictSet, h, getVal_cons, ih]

theorem getVal_dictSet_ne (m : List (String × J)) (k k2 : String) (v : J)
    (hne : k2 ≠ k) : getVal (dictSet m k v) k2 = getVal m k2 := by
  have hkk : (k == k2) = false := beq_eq_false_iff_ne.mpr (Ne.symm hne)
  induction m with
  | nil => simp [dictSet, getVal_cons, hkk, getVal_nil]
  | cons p rest ih =>
    by_cases h : (p.1 == k) = true
    · have hp2 : (p.1 == k2) = false := by
        rw [beq_iff_eq] at h
        rw [h]
        exact hkk
      simp [dictSet, h, getVal_cons, hkk, hp2]
    · simp only [Bool.not_eq_true] at h
      simp [dictSet, h, getVal_cons, ih]

theorem applyCarry_untouched (cfg : List (String × String)) :
    ∀ (resp : J) (chunk c2 : List (String × J)),
      applyCarry cfg resp chunk = .ok c2 →
      ∀ k, k ∉ cfg.map Prod.fst → getVal c2 k = getVal chunk k := by
  induction cfg with
  | nil =>
    intro resp chunk c2 h k hk
    simp [applyCarry] at h
    rw [h]
  | cons e rest ih =>
    obtain ⟨key, val⟩ := e
    intro resp chunk c2 h k hk
    have hk1 : k ≠ key := by
      intro hkk
      exact hk (by simp [hkk])
    have hk2 : k ∉ rest.map Prod.fst := by
      intro hmem
      exact hk (by simp [hmem])
    cases hin : pyIn val resp with
    | error e2 => simp [applyCarry, hin] at h
    | ok b =>
      cases b with
      | false =>
        simp only [applyCarry, hin] at h
        exact ih resp chunk c2 h k hk2
      | true =>
        cases hget : respGet resp val with
        | error e2 => simp [applyCarry, hin, hget] at h
        | ok v =>
          simp only [applyCarry, hin, hget] at h
          rw [ih resp (dictSet chunk key v) c2 h k hk2]
          exact getVal_dictSet_ne chunk key k v hk1

theorem applyCarry_writes (cfg : List (String × String)) :
    ∀ (resp : J) (chunk c2 : List (String × J)),
      (cfg.map Prod.fst).Nodup →
      applyCarry cfg resp chunk = .ok c2 →
      ∀ key val x, (key, val) ∈ cfg → pyIn val resp = .ok true →
        respGet resp val = .ok x → getVal c2 key = some x := by
  induction cfg with
  | nil =>
    intro resp chunk c2 _ h key val x hmem _ _
    exact absurd hmem (List.not_mem_nil (key, val))
  | cons e rest ih =>
    obtain ⟨key0, val0⟩ := e
    intro resp chunk c2 hnd h key val x hmem hin hget
    have hnd2 : (rest.map Prod.fst).Nodup := by
      simp only [List.map_cons, List.nodup_cons] at hnd
      exact hnd.2
    have hk0 : key0 ∉ rest.map Prod.fst := by
      simp only [List.map_cons, List.nodup_cons] at hnd
      exact hnd.1
    rcases List.mem_cons.mp hmem with hhead | htail
    · have hkey : key = key0 := congrArg Prod.fst hhead
      have hval : val = val0 := congrArg Prod.snd hhead
      subst hkey hval
      simp only [applyCarry, hin, hget] at h
      rw [applyCarry_untouched rest resp (dictSet chunk key x) c2 h key hk0]
      exact getVal_dictSet_self chunk key x
    · cases hin0 : pyIn val0 resp with
      | error e2 => simp [applyCarry, hin0] at h
      | ok b =>
        cases b with
        | false =>
          simp only [applyCarry, hin0] at h
          exact ih resp chunk c2 hnd2 h key val x htail hin hget
        | true =>
          cases hget0 : respGet resp val0 with
          | error e2 => simp [applyCarry, hin0, hget0] at h
          | ok v0 =>
            simp only [applyCarry, hin0, hget0] at h
            exact ih resp (dictSet chunk key0 v0) c2 hnd2 h key val x htail hin hget

theorem seqGoTr_shape (pv : List (String × J) → Except PyErr J)
    (cfg : List (String × String)) (chunks : List (List (String × J))) :
    ∀ (resp : J) (tr : List (List (String × J) × J)),
      seqGoTr pv cfg resp chunks = .ok tr →
      (∀ pr, tr.head? = some pr → ∃ ch, applyCarry cfg resp ch = .ok pr.1) ∧
      (∀ i prev cur, tr[i]? = some prev → tr[i + 1]? = some cur →
        ∃ ch, applyCarry cfg prev.2 ch = .ok cur.1) := by
  induction chunks with
  | nil =>
    intro resp tr h
    simp only [seqGoTr] at h
    injection h with h
    subst h
    constructor
    · intro pr hpr
      simp at hpr
    · intro i prev cur hprev _
      simp at hprev
  | cons ch rest ih =>
    intro resp tr h
    cases hac : applyCarry cfg resp ch with
    | error e => simp [seqGoTr, hac] at h
    | ok chunk2 =>
      cases hpv : pv chunk2 with
      | error e => simp [seqGoTr, hac, hpv] at h
      | ok r =>
        cases hrec : seqGoTr pv cfg r rest with
        | error e => simp [seqGoTr, hac, hpv, hrec] at h
        | ok tr2 =>
          simp only [seqGoTr, hac, hpv, hrec] at h
          injection h with h
          subst h
          obtain ⟨ihHead, ihAdj⟩ := ih r tr2 hrec
          constructor
          · intro pr hpr
            rw [List.head?_cons] at hpr
            injection hpr with hpr
            subst hpr
            exact ⟨ch, hac⟩
          · intro i prev cur hprev hcur
            cases i with
            | zero =>
              rw [List.getElem?_cons_zero] at hprev
              injection hprev with hprev
              subst hprev
              rw [List.getElem?_cons_succ] at hcur
              cases tr2 with
              | nil => simp at hcur
              | cons q t =>
                rw [List.getElem?_cons_zero] at hcur
                injection hcur with hcur
                subst hcur
                exact ihHead q rfl
            | succ i =>
              rw [List.getElem?_cons_succ] at hprev
              rw [List.getElem?_cons_succ] at hcur
              exact ihAdj i prev cur hprev hcur

theorem initCarry_mem (cfg : List (String × String)) (key val : String)
    (hmem : (key, val) ∈ cfg) :
    pyIn val (initCarry cfg) = .ok true ∧
      respGet (initCarry cfg) val = .ok (J.str "n/a") := by
  have hx : (val, J.str "n/a") ∈ cfg.map (fun p => (p.2, J.str "n/a")) :=
    List.mem_map.mpr ⟨(key, val), hmem, rfl⟩
  constructor
  · simp only [initCarry, pyIn]
    congr 1
    rw [List.any_eq_true]
    exact ⟨(val, J.str "n/a"), hx, by simp⟩
  · simp only [initCarry, respGet]
    have hg : getVal (cfg.map (fun p => (p.2, J.str "n/a"))) val = some (J.str "n/a") := by
      unfold getVal lookupKey
      cases hf : (cfg.map (fun p => (p.2, J.str "n/a"))).find? (fun p => p.1 == val) with
      | none =>
        have := List.find?_eq_none.mp hf (val, J.str "n/a") hx
        simp at this
      | some q =>
        have hqm := List.mem_of_find?_eq_some hf
        obtain ⟨p, _, hp⟩ := List.mem_map.mp hqm
        rw [← hp]
        simp
    rw [hg]
    rfl

theorem obj_carried (m : List (String × J)) (k : String) (x : J)
    (h : getVal m k = some x) :
    pyIn k (.obj m) = .ok true ∧ respGet (.obj m) k = .ok x := by
  constructor
  · simp only [pyIn]
    congr 1
    rw [List.any_eq_true]
    unfold getVal lookupKey at h
    cases hf : m.find? (fun p => p.1 == k) with
    | none => rw [hf] at h; simp at h
    | some q =>
      have hqm := List.mem_of_find?_eq_some hf
      have hqp := List.find?_some hf
      exact ⟨q, hqm, hqp⟩
  · simp only [respGet, h]
    rfl

/-- C5: in `sequential_batch_process` with a carry map, the input
actually handed to `process_v2` for chunk 0 carries the placeholder
`"n/a"` in every field named as a carry-map key, and for every later
chunk `i+1`, whenever chunk `i`'s result is a mapping containing a
carry-map entry's source key, chunk `i+1`'s input carries that key's
value under the entry's destination field. -/
theorem C5_sequential_carry (pv : List (String × J) → Except PyErr J)
    (cfg : List (String × String)) (chunks : List (List (String × J)))
    (tr : List (List (String × J) × J))
    (hnd : (cfg.map Prod.fst).Nodup)
    (hrun : seqGoTr pv cfg (initCarry cfg) chunks = .ok tr) :
    (∀ pr, tr.head? = some pr → ∀ kv ∈ cfg, getVal pr.1 kv.1 = some (J.str "n/a")) ∧
      (∀ i prev cur, tr[i]? = some prev → tr[i + 1]? = some cur →
        ∀ m, prev.2 = J.obj m → ∀ kv ∈ cfg, ∀ x, getVal m kv.2 = some x →
          getVal cur.1 kv.1 = some x) := by
  obtain ⟨hHead, hAdj⟩ := seqGoTr_shape pv cfg chunks (initCarry cfg) tr hrun
  constructor
  · intro pr hpr kv hkv
    obtain ⟨ch, hch⟩ := hHead pr hpr
    obtain ⟨hin, hget⟩ := initCarry_mem cfg kv.1 kv.2 hkv
    exact applyCarry_writes cfg (initCarry cfg) ch pr.1 hnd hch kv.1 kv.2
      (J.str "n/a") hkv hin hget
  · intro i prev cur hprev hcur m hm kv hkv x hx
    obtain ⟨ch, hch⟩ := hAdj i prev cur hprev hcur
    rw [hm] at hch
    obtain ⟨hin, hget⟩ := obj_carried m kv.2 x hx
    exact applyCarry_writes cfg (J.obj m) ch cur.1 hnd hch kv.1 kv.2 x hkv hin hget

/-- C5 (witness): a two-chunk run with carry map
`(carry_in ← carry_out)`: chunk 0's actual input carries `"n/a"`,
chunk 1's actual input carries chunk 0's `carry_out` value. -/
theorem C5_sequential_carry_witness :
    getVal [("text", J.str "t1"), ("carry_in", J.str "n/a")] "carry_in" =
        some (J.str "n/a") ∧
      getVal [("text", J.str "t2"), ("carry_in", J.str "v0")] "carry_in" =
        some (J.str "v0") := by
  have h := C5_sequential_carry (fun _ => .ok (J.obj [("carry_out", J.str "v0")]))
    [("carry_in", "carry_out")]
    [[("text", J.str "t1")], [("text", J.str "t2")]]
    [([("text", J.str "t1"), ("carry_in", J.str "n/a")], J.obj [("carry_out", J.str "v0")]),
     ([("text", J.str "t2"), ("carry_in", J.str "v0")], J.obj [("carry_out", J.str "v0")])]
    (by simp) rfl
  constructor
  · exact h.1 _ rfl ("carry_in", "carry_out") (by simp)
  · exact h.2 0 _ _ rfl rfl [("carry_out", J.str "v0")] rfl ("carry_in", "carry_out")
      (by simp) (J.str "v0") rfl

/-- The per-item retry loop `process_batch_with_retry` of
`parallel_batch_process` (processor_core.py lines 307–325).
`outcomes a` is the result of the `a`-th `process_v2` call for this
item (an external oracle); the Python counter `retries` (counting up
to `max_retries`) is carried as the fuel `k = max_retries - retries`.
A `while` loop never entered (`max_retries ≤ 0`) falls through and
implicitly returns `None`. -/
def retryGo (outcomes : Nat → Except PyErr J) (maxR : Nat) :
    Nat → Nat → Except PyErr (Option J)
  | 0, _ => .ok none
  | k + 1, a =>
    match outcomes a with
    | .ok r => .ok (some r)
    | .error _ =>
      match k with
      | 0 => .error (.exc ("Failed to process batch after " ++ toString maxR ++ " retries"))
      | k2 + 1 => retryGo outcomes maxR (k2 + 1) (a + 1)

/-- `process_batch_with_retry` starting at `retries = 0`. -/
def retryLoop (outcomes : Nat → Except PyErr J) (maxR : Nat) : Except PyErr (Option J) :=
  retryGo outcomes maxR maxR 0

/-- One task of `parallel_batch_process`: the retry loop for item `i`,
tagging a successful response with its submission order
(`return (order, response)`, line 319). -/
def taskRun (outcomes : Nat → Nat → Except PyErr J) (i maxR : Nat) :
    Except PyErr (Option (Nat × J)) :=
  match retryLoop (outcomes i) maxR with
  | .error e => .error e
  | .ok none => .ok none
  | .ok (some r) => .ok (some (i, r))

/-- `asyncio.gather(*tasks)` (line 327): if every task succeeds the
values are collected, otherwise a failed task's exception propagates
and no result list exists. -/
def gatherAll {α : Type} : List (Except PyErr α) → Except PyErr (List α)
  | [] => .ok []
  | .error e :: _ => .error e
  | .ok x :: rest =>
    match gatherAll rest with
    | .error e => .error e
    | .ok xs => .ok (x :: xs)

/-- Collapses the `Option` produced by a fall-through task return:
subscripting `None` in the sort key raises `TypeError`. -/
def allSome {α : Type} : List (Option α) → Option (List α)
  | [] => some []
  | none :: _ => none
  | some x :: rest => (allSome rest).map (fun xs => x :: xs)

/-- Sort key `lambda x: x[0]` of line 328. -/
def keyLe (a b : Nat × J) : Bool := decide (a.1 ≤ b.1)

/-- Lines 328–329 of `parallel_batch_process`: stable-sort the tagged
responses by submission order and strip the tags. -/
def orderResponses (l : List (Nat × J)) : List J :=
  (l.mergeSort keyLe).map Prod.snd

/-- `parallel_batch_process` over `n` items (processor_core.py lines
294–332), with the per-item `process_v2` outcomes supplied by the
oracle `outcomes`. -/
def parallelBatch (outcomes : Nat → Nat → Except PyErr J) (n maxR : Nat) :
    Except PyErr (List J) :=
  match gatherAll ((List.range n).map (fun i => taskRun outcomes i maxR)) with
  | .error e => .error e
  | .ok unordered =>
    match allSome unordered with
    | none => .error (.typeError "NoneType object is not subscriptable")
    | some pairs => .ok (orderResponses pairs)

def isErr {α : Type} : Except PyErr α → Bool
  | .error _ => true
  | .ok _ => false

theorem sortedKeys_perm_eq : ∀ (l2 l1 : List (Nat × J)), l1.Perm l2 →
    List.Pairwise (fun a b => a.1 < b.1) l2 →
    List.Pairwise (fun a b => keyLe a b = true) l1 → l1 = l2 := by
  intro l2
  induction l2 with
  | nil =>
    intro l1 hp _ _
    exact hp.eq_nil
  | cons a t ih =>
    intro l1 hp hpw2 hpw1
    cases l1 with
    | nil =>
      have := hp.symm.eq_nil
      simp at this
    | cons b t1 =>
      have hab : b = a := by
        have hb_mem : b ∈ a :: t := hp.subset (List.mem_cons_self b t1)
        rcases List.mem_cons.mp hb_mem with h | h
        · exact h
        · have h1 : a.1 < b.1 := (List.pairwise_cons.mp hpw2).1 b h
          have ha_mem : a ∈ b :: t1 := hp.symm.subset (List.mem_cons_self a t)
          rcases List.mem_cons.mp ha_mem with h2 | h2
          · rw [h2] at h1
            omega
          · have h3 := (List.pairwise_cons.mp hpw1).1 a h2
            have h4 : b.1 ≤ a.1 := of_decide_eq_true h3
            omega
      subst hab
      have htp : t1.Perm t := hp.cons_inv
      have heq := ih t1 htp (List.pairwise_cons.mp hpw2).2 (List.pairwise_cons.mp hpw1).2
      rw [heq]

/-- C4: if every batch item eventually succeeds (its retry loop
returns item `i`'s result `f i`), then whatever order the tagged
responses are gathered in (any permutation of the tagged results —
completion order is arbitrary), the ordering step of
`parallel_batch_process` returns each item's result at the item's own
submission index. -/
theorem C4_parallel_order (n : Nat) (f : Nat → J) (outcomes : Nat → Nat → Except PyErr J)
    (maxR : Nat) (gathered : List (Nat × J))
    (_hsucc : ∀ i, i < n → retryLoop (outcomes i) maxR = .ok (some (f i)))
    (hperm : gathered.Perm ((List.range n).map (fun i => (i, f i)))) :
    orderResponses gathered = (List.range n).map f := by
  have htrans : ∀ (a b c : Nat × J), keyLe a b = true → keyLe b c = true →
      keyLe a c = true := by
    intro a b c h1 h2
    have h1' := of_decide_eq_true h1
    have h2' := of_decide_eq_true h2
    exact decide_eq_true (Nat.le_trans h1' h2')
  have htot : ∀ (a b : Nat × J), (keyLe a b || keyLe b a) = true := by
    intro a b
    rcases Nat.le_total a.1 b.1 with h | h
    · rw [Bool.or_eq_true]
      exact Or.inl (decide_eq_true h)
    · rw [Bool.or_eq_true]
      exact Or.inr (decide_eq_true h)
  have hsorted := List.sorted_mergeSort htrans htot gathered
  have hpermSort : (gathered.mergeSort keyLe).Perm
      ((List.range n).map (fun i => (i, f i))) :=
    (List.mergeSort_perm gathered keyLe).trans hperm
  have htargetPW : List.Pairwise (fun a b : Nat × J => a.1 < b.1)
      ((List.range n).map (fun i => (i, f i))) := by
    rw [List.pairwise_map]
    exact List.pairwise_lt_range n
  have heq := sortedKeys_perm_eq ((List.range n).map (fun i => (i, f i)))
    (gathered.mergeSort keyLe) hpermSort htargetPW hsorted
  unfold orderResponses
  rw [heq, List.map_map]
  rfl

/-- C4 (witness): three items completing in order 1, 2, 0 are still
returned as results 0, 1, 2. -/
theorem C4_parallel_order_witness :
    orderResponses [(1, J.num 1), (2, J.num 2), (0, J.num 0)] =
      (List.range 3).map (fun i => J.num i) :=
  C4_parallel_order 3 (fun i => J.num i) (fun i _ => .ok (J.num i)) 1
    [(1, J.num 1), (2, J.num 2), (0, J.num 0)]
    (fun _ _ => rfl)
    (List.perm_append_singleton (0, J.num 0) [(1, J.num 1), (2, J.num 2)])

theorem gatherAll_error {α : Type} : ∀ (l : List (Except PyErr α)),
    (∃ x ∈ l, isErr x = true) → isErr (gatherAll l) = true := by
  intro l
  induction l with
  | nil =>
    intro h
    obtain ⟨x, hx, _⟩ := h
    exact absurd hx (List.not_mem_nil x)
  | cons y rest ih =>
    intro h
    cases y with
    | error e => rfl
    | ok v =>
      obtain ⟨x, hx, hxe⟩ := h
      rcases List.mem_cons.mp hx with h2 | h2
      · rw [h2] at hxe
        simp [isErr] at hxe
      · have hrest := ih ⟨x, h2, hxe⟩
        cases hg : gatherAll rest with
        | error e =>
          show isErr (match gatherAll rest with
            | .error e => .error e
            | .ok xs => .ok (v :: xs)) = true
          rw [hg]
          rfl
        | ok xs => rw [hg] at hrest; simp [isErr] at hrest

/-- C8: if any single item of `parallel_batch_process` still fails
after its retry bound is exhausted, the whole call raises: the result
is an error and no list of results — partial or otherwise — is
returned. -/
theorem C8_all_or_nothing (outcomes : Nat → Nat → Except PyErr J) (n maxR i : Nat)
    (hi : i < n) (hfail : isErr (taskRun outcomes i maxR) = true) :
    isErr (parallelBatch outcomes n maxR) = true := by
  have hmem : taskRun outcomes i maxR ∈
      (List.range n).map (fun j => taskRun outcomes j maxR) :=
    List.mem_map.mpr ⟨i, List.mem_range.mpr hi, rfl⟩
  have hg := gatherAll_error ((List.range n).map (fun j => taskRun outcomes j maxR))
    ⟨taskRun outcomes i maxR, hmem, hfail⟩
  unfold parallelBatch
  cases hga : gatherAll ((List.range n).map (fun j => taskRun outcomes j maxR)) with
  | error e => rfl
  | ok xs => rw [hga] at hg; simp [isErr] at hg

/-- C8 (witness): two items, item 1 failing on every attempt with
retry bound 2: the batch call errors. -/
theorem C8_all_or_nothing_witness :
    isErr (parallelBatch
      (fun i _ => if i = 1 then .error (.exc "boom") else .ok (J.num i)) 2 2) = true :=
  C8_all_or_nothing (fun i _ => if i = 1 then .error (.exc "boom") else .ok (J.num i))
    2 2 1 (by decide) rfl

/-- Ghost events recorded by the rate-limiter model: a session id
entering the waiting queue, a queued session being notified by a
release (its future resolved), and a session being recorded in
`active_sessions`. -/
inductive Ev where
  | enq : String → Ev
  | notify : String → Ev
  | adm : String → Ev
deriving DecidableEq

/-- Program counter of one `acquire_session(session_id)` call, cut at
the `await` suspension points of rate_limiter.py:

* `start`      – before the first `async with self._lock` (lines 31–40);
* `waitFuture` – suspended in `await future` (line 43);
* `ready`      – about to run `await self.semaphore.acquire()`
  (line 46), either directly (a slot was free) or woken by a release;
* `holdPermit` – semaphore acquired, before the second lock section
  that records the session (lines 49–54);
* `done`       – returned. -/
inductive PC where
  | start : PC
  | waitFuture : PC
  | ready : PC
  | holdPermit : PC
  | done : PC
deriving DecidableEq

/-- State of one `LLMRateLimiter` plus the in-flight `acquire_session`
calls ("threads", each a session id with its program counter) and the
ghost event log.  `active` is the key list of the `active_sessions`
dict (insertion-ordered), `queue` holds the indices of the waiting
threads in arrival order, and `sem` is the semaphore value. -/
structure RLState where
  maxSessions : Nat
  active : List String
  queue : List Nat
  sem : Nat
  threads : List (String × PC)
  log : List Ev

def thSid (s : RLState) (i : Nat) : String :=
  (s.threads.getD i ("", PC.done)).1

def thPC (s : RLState) (i : Nat) : PC :=
  (s.threads.getD i ("", PC.done)).2

def setPC (ts : List (String × PC)) (i : Nat) (p : PC) : List (String × PC) :=
  ts.set i ((ts.getD i ("", PC.done)).1, p)

/-- Lines 32–34: the session id is already active, so the call logs a
warning and returns, touching nothing else. -/
def dupReturn (s : RLState) (i : Nat) : RLState :=
  { s with threads := setPC s.threads i PC.done }

/-- Lines 37–40: no slot free, so the call enqueues `(session_id,
future)` and will suspend on the future. -/
def enqueueWait (s : RLState) (i : Nat) : RLState :=
  { s with queue := s.queue ++ [i],
           threads := setPC s.threads i PC.waitFuture,
           log := s.log ++ [Ev.enq (thSid s i)] }

/-- A slot was free at the lock section, so the call proceeds straight
to the semaphore. -/
def proceedDirect (s : RLState) (i : Nat) : RLState :=
  { s with threads := setPC s.threads i PC.ready }

/-- Line 46: `await self.semaphore.acquire()` succeeding. -/
def semAcquire (s : RLState) (i : Nat) : RLState :=
  { s with sem := s.sem - 1, threads := setPC s.threads i PC.holdPermit }

/-- Lines 49–54: record the session.  A dict assignment adds the key
only when absent (the duplicate-id race leaks the permit). -/
def recordSession (s : RLState) (i : Nat) : RLState :=
  { s with active := if thSid s i ∈ s.active then s.active else s.active ++ [thSid s i],
           threads := setPC s.threads i PC.done,
           log := s.log ++ [Ev.adm (thSid s i)] }

/-- Lines 63–71 with an empty waiting queue: delete the session and
release the semaphore. -/
def releaseNoQ (s : RLState) (sid : String) : RLState :=
  { s with active := s.active.erase sid, sem := s.sem + 1 }

/-- Lines 63–77 with a non-empty waiting queue: delete the session,
release the semaphore, pop the queue front and resolve its future
(the woken thread resumes at the semaphore). -/
def releasePop (s : RLState) (sid : String) (j : Nat) (rest : List Nat) : RLState :=
  { s with active := s.active.erase sid, sem := s.sem + 1,
           queue := rest,
           threads := setPC s.threads j PC.ready,
           log := s.log ++ [Ev.notify (thSid s j)] }

/-- One atomic step of the rate limiter: each constructor is one
critical section or await boundary of `acquire_session` /
`release_session`, interleaved arbitrarily across threads. -/
inductive Step : RLState → RLState → Prop where
  | acquireDup (s : RLState) (i : Nat) (h1 : thPC s i = PC.start)
      (h2 : thSid s i ∈ s.active) : Step s (dupReturn s i)
  | acquireWait (s : RLState) (i : Nat) (h1 : thPC s i = PC.start)
      (h2 : thSid s i ∉ s.active) (h3 : s.maxSessions ≤ s.active.length) :
      Step s (enqueueWait s i)
  | acquireDirect (s : RLState) (i : Nat) (h1 : thPC s i = PC.start)
      (h2 : thSid s i ∉ s.active) (h3 : s.active.length < s.maxSessions) :
      Step s (proceedDirect s i)
  | acquireSem (s : RLState) (i : Nat) (h1 : thPC s i = PC.ready) (h2 : 0 < s.sem) :
      Step s (semAcquire s i)
  | acquireRecord (s : RLState) (i : Nat) (h1 : thPC s i = PC.holdPermit) :
      Step s (recordSession s i)
  | releaseHitNoQ (s : RLState) (sid : String) (h1 : sid ∈ s.active)
      (h2 : s.queue = []) : Step s (releaseNoQ s sid)
  | releaseHitPop (s : RLState) (sid : String) (j : Nat) (rest : List Nat)
      (h1 : sid ∈ s.active) (h2 : s.queue = j :: rest) :
      Step s (releasePop s sid j rest)
  | releaseMiss (s : RLState) (sid : String) (h1 : sid ∉ s.active) : Step s s

/-- A fresh `LLMRateLimiter(max_concurrent_sessions)` with a set of
pending `acquire_session` calls, one per listed session id. -/
def initState (maxSessions : Nat) (sids : List String) : RLState :=
  ⟨maxSessions, [], [], maxSessions, sids.map (fun sid => (sid, PC.start)), []⟩

def Reachable (maxSessions : Nat) (sids : List String) (s : RLState) : Prop :=
  Relation.ReflTransGen Step (initState maxSessions sids) s

/-- Number of threads holding a semaphore permit they have not yet
turned into an `active_sessions` entry. -/
def holdCount (s : RLState) : Nat :=
  s.threads.countP (fun t => t.2 == PC.holdPermit)

theorem countP_set_eq (q : (String × PC) → Bool) :
    ∀ (ts : List (String × PC)) (i : Nat) (v : String × PC),
      q (ts.getD i ("", PC.done)) = q v →
      (ts.set i v).countP q = ts.countP q := by
  intro ts
  induction ts with
  | nil => intro i v _; rfl
  | cons h t ih =>
    intro i v hq
    cases i with
    | zero =>
      rw [List.getD_cons_zero] at hq
      rw [List.set_cons_zero, List.countP_cons, List.countP_cons, hq]
    | succ n =>
      rw [List.getD_cons_succ] at hq
      rw [List.set_cons_succ, List.countP_cons, List.countP_cons, ih n v hq]

theorem countP_set_le (q : (String × PC) → Bool) :
    ∀ (ts : List (String × PC)) (i : Nat) (v : String × PC),
      q v = false → (ts.set i v).countP q ≤ ts.countP q := by
  intro ts
  induction ts with
  | nil => intro i v _; exact Nat.le_refl _
  | cons h t ih =>
    intro i v hv
    cases i with
    | zero =>
      rw [List.set_cons_zero, List.countP_cons, List.countP_cons, hv]
      by_cases hh : q h = true
      · simp [hh]
      · simp only [Bool.not_eq_true] at hh
        rw [hh]
    | succ n =>
      rw [List.set_cons_succ, List.countP_cons, List.countP_cons]
      have := ih n v hv
      omega

theorem countP_set_inc (q : (String × PC) → Bool) :
    ∀ (ts : List (String × PC)) (i : Nat) (v : String × PC),
      i < ts.length → q (ts.getD i ("", PC.done)) = false → q v = true →
      (ts.set i v).countP q = ts.countP q + 1 := by
  intro ts
  induction ts with
  | nil => intro i v hi _ _; simp at hi
  | cons h t ih =>
    intro i v hi hold hv
    cases i with
    | zero =>
      rw [List.getD_cons_zero] at hold
      rw [List.set_cons_zero, List.countP_cons, List.countP_cons, hold, hv]
      simp
    | succ n =>
      rw [List.getD_cons_succ] at hold
      rw [List.set_cons_succ, List.countP_cons, List.countP_cons,
        ih n v (by simpa using hi) hold hv]
      omega

theorem countP_set_dec (q : (String × PC) → Bool) :
    ∀ (ts : List (String × PC)) (i : Nat) (v : String × PC),
      i < ts.length → q (ts.getD i ("", PC.done)) = true → q v = false →
      (ts.set i v).countP q + 1 = ts.countP q := by
  intro ts
  induction ts with
  | nil => intro i v hi _ _; simp at hi
  | cons h t ih =>
    intro i v hi hold hv
    cases i with
    | zero =>
      rw [List.getD_cons_zero] at hold
      rw [List.set_cons_zero, List.countP_cons, List.countP_cons, hold, hv]
      simp
    | succ n =>
      rw [List.getD_cons_succ] at hold
      rw [List.set_cons_succ, List.countP_cons, List.countP_cons]
      have := ih n v (by simpa using hi) hold hv
      omega

theorem setPC_fst : ∀ (ts : List (String × PC)) (i : Nat) (p : PC) (j : Nat),
    ((setPC ts i p).getD j ("", PC.done)).1 = (ts.getD j ("", PC.done)).1 := by
  intro ts
  induction ts with
  | nil => intro i p j; rfl
  | cons h t ih =>
    intro i p j
    cases i with
    | zero =>
      have hs : setPC (h :: t) 0 p = (h.1, p) :: t := by
        unfold setPC
        rw [List.getD_cons_zero, List.set_cons_zero]
      rw [hs]
      cases j with
      | zero => rw [List.getD_cons_zero, List.getD_cons_zero]
      | succ m => rw [List.getD_cons_succ, List.getD_cons_succ]
    | succ n =>
      have hs : setPC (h :: t) (n + 1) p = h :: setPC t n p := by
        unfold setPC
        rw [List.getD_cons_succ, List.set_cons_succ]
      rw [hs]
      cases j with
      | zero => rw [List.getD_cons_zero, List.getD_cons_zero]
      | succ m =>
        rw [List.getD_cons_succ, List.getD_cons_succ]
        exact ih n p m

theorem thPC_lt_length (s : RLState) (i : Nat) (h : thPC s i ≠ PC.done) :
    i < s.threads.length := by
  by_contra hc
  push_neg at hc
  have hd := List.getD_eq_default s.threads ("", PC.done) hc
  unfold thPC at h
  rw [hd] at h
  exact h rfl


theorem rl_invariant (m : Nat) (sids : List String) (s : RLState)
    (h : Reachable m sids s) :
    s.maxSessions = m ∧ s.active.length + holdCount s + s.sem ≤ m := by
  induction h with
  | refl =>
    refine ⟨rfl, ?_⟩
    have hz : holdCount (initState m sids) = 0 := by
      unfold holdCount initState
      rw [List.countP_eq_zero]
      intro a ha
      obtain ⟨sid, _, hEq⟩ := List.mem_map.mp ha
      rw [← hEq]
      simp
    unfold initState at hz ⊢
    rw [hz]
    simp
  | @tail b c hsteps hstep ih =>
    obtain ⟨hmax, hsum⟩ := ih
    cases hstep with
    | acquireDup i h1 h2 =>
      refine ⟨hmax, ?_⟩
      have hc : holdCount (dupReturn b i) = holdCount b := by
        unfold holdCount dupReturn setPC
        apply countP_set_eq
        unfold thPC at h1
        rw [h1]
        rfl
      show b.active.length + holdCount (dupReturn b i) + b.sem ≤ m
      rw [hc]
      exact hsum
    | acquireWait i h1 h2 h3 =>
      refine ⟨hmax, ?_⟩
      have hc : holdCount (enqueueWait b i) = holdCount b := by
        unfold holdCount enqueueWait setPC
        apply countP_set_eq
        unfold thPC at h1
        rw [h1]
        rfl
      show b.active.length + holdCount (enqueueWait b i) + b.sem ≤ m
      rw [hc]
      exact hsum
    | acquireDirect i h1 h2 h3 =>
      refine ⟨hmax, ?_⟩
      have hc : holdCount (proceedDirect b i) = holdCount b := by
        unfold holdCount proceedDirect setPC
        apply countP_set_eq
        unfold thPC at h1
        rw [h1]
        rfl
      show b.active.length + holdCount (proceedDirect b i) + b.sem ≤ m
      rw [hc]
      exact hsum
    | acquireSem i h1 h2 =>
      refine ⟨hmax, ?_⟩
      have hi : i < b.threads.length := by
        apply thPC_lt_length
        rw [h1]
        simp
      have hc : holdCount (semAcquire b i) = holdCount b + 1 := by
        unfold holdCount semAcquire setPC
        apply countP_set_inc _ _ _ _ hi
        · unfold thPC at h1
          rw [h1]
          rfl
        · rfl
      show b.active.length + holdCount (semAcquire b i) + (b.sem - 1) ≤ m
      rw [hc]
      omega
    | acquireRecord i h1 =>
      refine ⟨hmax, ?_⟩
      have hi : i < b.threads.length := by
        apply thPC_lt_length
        rw [h1]
        simp
      have hc : holdCount (recordSession b i) + 1 = holdCount b := by
        unfold holdCount recordSession setPC
        apply countP_set_dec _ _ _ _ hi
        · unfold thPC at h1
          rw [h1]
          rfl
        · rfl
      show (if thSid b i ∈ b.active then b.active else b.active ++ [thSid b i]).length +
        holdCount (recordSession b i) + b.sem ≤ m
      by_cases hmem : thSid b i ∈ b.active
      · rw [if_pos hmem]
        omega
      · rw [if_neg hmem, List.length_append]
        simp only [List.length_cons, List.length_nil]
        omega
    | releaseHitNoQ sid h1 h2 =>
      refine ⟨hmax, ?_⟩
      have hlen : (b.active.erase sid).length = b.active.length - 1 :=
        List.length_erase_of_mem h1
      have hpos : 0 < b.active.length := List.length_pos_of_mem h1
      show (b.active.erase sid).length + holdCount b + (b.sem + 1) ≤ m
      rw [hlen]
      omega
    | releaseHitPop sid j rest h1 h2 =>
      refine ⟨hmax, ?_⟩
      have hlen : (b.active.erase sid).length = b.active.length - 1 :=
        List.length_erase_of_mem h1
      have hpos : 0 < b.active.length := List.length_pos_of_mem h1
      have hc : holdCount (releasePop b sid j rest) ≤ holdCount b := by
        unfold holdCount releasePop setPC
        apply countP_set_le
        rfl
      show (b.active.erase sid).length + holdCount (releasePop b sid j rest) +
        (b.sem + 1) ≤ m
      omega
    | releaseMiss sid h1 => exact ⟨hmax, hsum⟩

/-- C1: along every interleaving of `acquire_session` /
`release_session` steps from a fresh rate limiter, the number of
entries in `active_sessions` never exceeds
`max_concurrent_sessions`.  (This is a safety invariant of every
reachable state, so it holds in particular for runs in which every
acquire is eventually paired with a release.) -/
theorem C1_capacity_bound (m : Nat) (sids : List String) (s : RLState)
    (h : Reachable m sids s) : s.active.length ≤ m := by
  have hinv := rl_invariant m sids s h
  omega

/-- C1 (witness): a concrete three-step run (lock section, semaphore,
record) of one acquire against capacity 1. -/
theorem C1_capacity_bound_witness :
    (recordSession (semAcquire (proceedDirect (initState 1 ["A"]) 0) 0) 0).active.length ≤ 1 :=
  C1_capacity_bound 1 ["A"] _
    (Relation.ReflTransGen.tail
      (Relation.ReflTransGen.tail
        (Relation.ReflTransGen.tail Relation.ReflTransGen.refl
          (Step.acquireDirect (initState 1 ["A"]) 0 (by decide) (by decide) (by decide)))
        (Step.acquireSem (proceedDirect (initState 1 ["A"]) 0) 0 (by decide) (by decide)))
      (Step.acquireRecord (semAcquire (proceedDirect (initState 1 ["A"]) 0) 0) 0 (by decide)))

theorem getD_set_self {α : Type} (d : α) :
    ∀ (l : List α) (i : Nat) (v : α), i < l.length → (l.set i v).getD i d = v := by
  intro l
  induction l with
  | nil => intro i v hi; simp at hi
  | cons h t ih =>
    intro i v hi
    cases i with
    | zero => rw [List.set_cons_zero, List.getD_cons_zero]
    | succ n =>
      rw [List.set_cons_succ, List.getD_cons_succ]
      exact ih n v (by simpa using hi)

/-- C6: when the session id of an `acquire_session` call is already in
`active_sessions`, the early-return step is enabled and changes
nothing observable: `active_sessions`, the waiting queue and the
semaphore (remaining capacity) are all unchanged; only that call's
program counter moves to `done`. -/
theorem C6_duplicate_acquire_noop (s : RLState) (i : Nat)
    (h1 : thPC s i = PC.start) (h2 : thSid s i ∈ s.active) :
    Step s (dupReturn s i) ∧
      (dupReturn s i).active = s.active ∧
      (dupReturn s i).queue = s.queue ∧
      (dupReturn s i).sem = s.sem ∧
      thPC (dupReturn s i) i = PC.done := by
  refine ⟨Step.acquireDup s i h1 h2, rfl, rfl, rfl, ?_⟩
  have hi : i < s.threads.length := by
    apply thPC_lt_length
    rw [h1]
    simp
  unfold thPC dupReturn setPC
  rw [getD_set_self ("", PC.done) s.threads i _ hi]

/-- C6 (witness): a limiter at capacity 0 remaining, with session
`"A"` active and a second `acquire_session("A")` call pending. -/
theorem C6_duplicate_acquire_noop_witness :
    Step (⟨1, ["A"], [], 0, [("A", PC.start)], []⟩ : RLState)
        (dupReturn (⟨1, ["A"], [], 0, [("A", PC.start)], []⟩ : RLState) 0) ∧
      (dupReturn (⟨1, ["A"], [], 0, [("A", PC.start)], []⟩ : RLState) 0).active = ["A"] ∧
      (dupReturn (⟨1, ["A"], [], 0, [("A", PC.start)], []⟩ : RLState) 0).queue = [] ∧
      (dupReturn (⟨1, ["A"], [], 0, [("A", PC.start)], []⟩ : RLState) 0).sem = 0 ∧
      thPC (dupReturn (⟨1, ["A"], [], 0, [("A", PC.start)], []⟩ : RLState) 0) 0 = PC.done :=
  C6_duplicate_acquire_noop (⟨1, ["A"], [], 0, [("A", PC.start)], []⟩ : RLState) 0
    (by decide) (by decide)

/-- Whether some occurrence of `e1` lies strictly before some
occurrence of `e2` in the event list. -/
def evBeforeB (e1 e2 : Ev) : List Ev → Bool
  | [] => false
  | x :: xs => (x == e1 && xs.contains e2) || evBeforeB e1 e2 xs

/-- The FIFO-admission property claimed by the spec: in every
reachable state, if session `a` was enqueued before session `b` and
`b` has been recorded in `active_sessions`, then `a` was recorded
before `b`. -/
def FifoAdmission (m : Nat) (sids : List String) : Prop :=
  ∀ s, Reachable m sids s → ∀ a b : String,
    evBeforeB (Ev.enq a) (Ev.enq b) s.log = true →
    Ev.adm b ∈ s.log →
    evBeforeB (Ev.adm a) (Ev.adm b) s.log = true

/-- Session ids enqueued into the waiting queue, in order. -/
def enqSids (l : List Ev) : List String :=
  l.filterMap (fun e => match e with | Ev.enq a => some a | _ => none)

/-- Session ids notified (dequeued, future resolved) by releases, in
order. -/
def notifySids (l : List Ev) : List String :=
  l.filterMap (fun e => match e with | Ev.notify a => some a | _ => none)

/-- C2 (counterexample): with capacity 2 and sessions X, Y active,
queued waiters A then B are both notified in order; but if the
scheduler runs B's woken task through the semaphore and the recording
lock section before A's (both permits are free, so nothing blocks B),
B is recorded in `active_sessions` before A.  The claim quantifies
over every interleaving, so it is refuted. -/
theorem C2_counterexample : ¬ FifoAdmission 2 ["X", "Y", "A", "B"] := by
  intro h
  have r0 : Reachable 2 ["X", "Y", "A", "B"] (initState 2 ["X", "Y", "A", "B"]) :=
    Relation.ReflTransGen.refl
  have r1 := r0.tail (Step.acquireDirect _ 0 (by decide) (by decide) (by decide))
  have r2 := r1.tail (Step.acquireSem _ 0 (by decide) (by decide))
  have r3 := r2.tail (Step.acquireRecord _ 0 (by decide))
  have r4 := r3.tail (Step.acquireDirect _ 1 (by decide) (by decide) (by decide))
  have r5 := r4.tail (Step.acquireSem _ 1 (by decide) (by decide))
  have r6 := r5.tail (Step.acquireRecord _ 1 (by decide))
  have r7 := r6.tail (Step.acquireWait _ 2 (by decide) (by decide) (by decide))
  have r8 := r7.tail (Step.acquireWait _ 3 (by decide) (by decide) (by decide))
  have r9 := r8.tail (Step.releaseHitPop _ "X" 2 [3] (by decide) (by decide))
  have r10 := r9.tail (Step.releaseHitPop _ "Y" 3 [] (by decide) (by decide))
  have r11 := r10.tail (Step.acquireSem _ 3 (by decide) (by decide))
  have r12 := r11.tail (Step.acquireRecord _ 3 (by decide))
  have r13 := r12.tail (Step.acquireSem _ 2 (by decide) (by decide))
  have r14 := r13.tail (Step.acquireRecord _ 2 (by decide))
  have hviol := h _ r14 "A" "B" (by decide) (by decide)
  exact absurd hviol (by decide)

/-- C2 (amended): what the queue machinery does guarantee, for every
interleaving: waiters are dequeued and notified strictly in arrival
order.  In every reachable state the sequence of enqueued session ids
equals the notified ids followed by the ids still waiting, in order —
notifications are FIFO.  Admission order can deviate from
notification order (see the counterexample): after two releases have
resolved both futures, the later-notified waiter may win the race
through the semaphore and the recording lock section. -/
theorem C2_fifo_notification (m : Nat) (sids : List String) (s : RLState)
    (h : Reachable m sids s) :
    enqSids s.log = notifySids s.log ++ s.queue.map (fun j => thSid s j) := by
  induction h with
  | refl => rfl
  | @tail b c hsteps hstep ih =>
    cases hstep with
    | acquireDup i h1 h2 =>
      show enqSids b.log =
        notifySids b.log ++ b.queue.map (fun j => thSid (dupReturn b i) j)
      have hf : (fun j => thSid (dupReturn b i) j) = (fun j => thSid b j) := by
        funext j
        exact setPC_fst b.threads i PC.done j
      rw [hf]
      exact ih
    | acquireWait i h1 h2 h3 =>
      show enqSids (b.log ++ [Ev.enq (thSid b i)]) =
        notifySids (b.log ++ [Ev.enq (thSid b i)]) ++
          (b.queue ++ [i]).map (fun j => thSid (enqueueWait b i) j)
      have hf : (fun j => thSid (enqueueWait b i) j) = (fun j => thSid b j) := by
        funext j
        exact setPC_fst b.threads i PC.waitFuture j
      rw [hf]
      unfold enqSids notifySids at ih ⊢
      rw [List.filterMap_append, List.filterMap_append, List.map_append, ih]
      simp
    | acquireDirect i h1 h2 h3 =>
      show enqSids b.log =
        notifySids b.log ++ b.queue.map (fun j => thSid (proceedDirect b i) j)
      have hf : (fun j => thSid (proceedDirect b i) j) = (fun j => thSid b j) := by
        funext j
        exact setPC_fst b.threads i PC.ready j
      rw [hf]
      exact ih
    | acquireSem i h1 h2 =>
      show enqSids b.log =
        notifySids b.log ++ b.queue.map (fun j => thSid (semAcquire b i) j)
      have hf : (fun j => thSid (semAcquire b i) j) = (fun j => thSid b j) := by
        funext j
        exact setPC_fst b.threads i PC.holdPermit j
      rw [hf]
      exact ih
    | acquireRecord i h1 =>
      show enqSids (b.log ++ [Ev.adm (thSid b i)]) =
        notifySids (b.log ++ [Ev.adm (thSid b i)]) ++
          b.queue.map (fun j => thSid (recordSession b i) j)
      have hf : (fun j => thSid (recordSession b i) j) = (fun j => thSid b j) := by
        funext j
        exact setPC_fst b.threads i PC.done j
      rw [hf]
      unfold enqSids notifySids at ih ⊢
      rw [List.filterMap_append, List.filterMap_append, ih]
      simp
    | releaseHitNoQ sid h1 h2 =>
      exact ih
    | releaseHitPop sid j rest h1 h2 =>
      show enqSids (b.log ++ [Ev.notify (thSid b j)]) =
        notifySids (b.log ++ [Ev.notify (thSid b j)]) ++
          rest.map (fun j2 => thSid (releasePop b sid j rest) j2)
      have hf : (fun j2 => thSid (releasePop b sid j rest) j2) =
          (fun j2 => thSid b j2) := by
        funext j2
        exact setPC_fst b.threads j PC.ready j2
      rw [hf]
      unfold enqSids notifySids at ih ⊢
      rw [List.filterMap_append, List.filterMap_append, ih, h2]
      simp
    | releaseMiss sid h1 =>
      exact ih

/-- C2 (witness for the amended theorem): capacity 1, P admitted, Q
queued, then P released: Q is notified, and the enqueue and notify
sequences agree. -/
theorem C2_fifo_notification_witness :
    enqSids (releasePop (enqueueWait (recordSession (semAcquire
        (proceedDirect (initState 1 ["P", "Q"]) 0) 0) 0) 1) "P" 1 []).log =
      notifySids (releasePop (enqueueWait (recordSession (semAcquire
        (proceedDirect (initState 1 ["P", "Q"]) 0) 0) 0) 1) "P" 1 []).log ++
      (releasePop (enqueueWait (recordSession (semAcquire
        (proceedDirect (initState 1 ["P", "Q"]) 0) 0) 0) 1) "P" 1 []).queue.map
        (fun j => thSid (releasePop (enqueueWait (recordSession (semAcquire
          (proceedDirect (initState 1 ["P", "Q"]) 0) 0) 0) 1) "P" 1 []) j) :=
  C2_fifo_notification 1 ["P", "Q"] _
    (Relation.ReflTransGen.tail
      (Relation.ReflTransGen.tail
        (Relation.ReflTransGen.tail
          (Relation.ReflTransGen.tail
            (Relation.ReflTransGen.tail Relation.ReflTransGen.refl
              (Step.acquireDirect (initState 1 ["P", "Q"]) 0
                (by decide) (by decide) (by decide)))
            (Step.acquireSem _ 0 (by decide) (by decide)))
          (Step.acquireRecord _ 0 (by decide)))
        (Step.acquireWait _ 1 (by decide) (by decide) (by decide)))
      (Step.releaseHitPop _ "P" 1 [] (by decide) (by decide)))
